import Mathlib

/-!
Verification of the `shana` command line tool (repository `go-shana/cmd`),
specifically the `run` subcommand implemented in `shana/internal/cmd/create.go`.

The repository snapshot contains two variants of the `run` command
implementation (two historical versions of the same file):
the first variant occupies lines 192-570 of `create.go` and the second
variant lines 571-908.  Definitions suffixed `A` model the first variant,
definitions suffixed `B` the second; unsuffixed definitions model code that
is identical in both variants.

Strings are modelled as `List Char` (`Str`).  The filesystem tree passed to
sub-package discovery is modelled by the inductive type `FsEntry`.  The
three-stage process pipeline (`go mod tidy`, `go build`, running the built
binary) is modelled as a pure function from a `RunEnv` (project data,
command-line arguments, external process outcomes and the delivery time of
the first interrupt notification) to a `RunResult` recording the reported
error, the list of spawned external processes, and the workspace directory
lifecycle.  The background SIGINT handler goroutine is modelled separately
(`runHandlerA`, `runHandlerB`) as a function processing the sequence of
delivered notifications, where the process-handle slot contents at each
notification are an input; interrupt delivery during a pipeline stage is
modelled synchronously (the handler's flag store is visible when the stage
call returns).
-/

/-- Strings are modelled as lists of characters. -/
abbrev Str := List Char

/-- Conversion from Lean string literals to the model's string type. -/
def str (s : String) : Str := s.data

/-- Go source: `root.go`, constant `shanaCorePackage`. -/
def shanaCorePackage : Str := str "github.com/go-shana/core"

/-- Go source: `create.go` line 213 / 591, constant `shanaBuildServiceBinaryName`. -/
def shanaBuildServiceBinaryName : Str := str "shana-build-service"

/-- The fixed synthetic module path used for the generated `go.mod`
(`create.go` line 381 in variant A, hard-coded in the template at line 873
in variant B). -/
def syntheticModulePath : Str := str "github.com/go-shana/shana-workspace/debug-server"

/-! ### Go standard library: `path.Clean` and `path.Join`

`path.Clean` applies purely lexical processing to a slash-separated path:
it drops empty and `.` elements, resolves `..` against preceding elements
(keeping leading `..` elements in a relative path, dropping them at the
root of an absolute path), and returns `.` for an empty relative result
and `/` for an empty rooted result. -/

/-- One step of `path.Clean` element processing: how a single path element
changes the stack of output elements. -/
def pathCleanStep (rooted : Bool) (acc : List Str) (e : Str) : List Str :=
  if e = [] ∨ e = str "." then acc
  else if e = str ".." then
    if acc ≠ [] ∧ acc.getLast? ≠ some (str "..") then acc.dropLast
    else if rooted then acc
    else acc ++ [str ".."]
  else acc ++ [e]

/-- Model of Go's `path.Clean`. -/
def pathClean (p : Str) : Str :=
  if p = [] then str "."
  else
    let rooted := p.head? = some '/'
    let out := (p.splitOn '/').foldl (pathCleanStep rooted) []
    if out = [] then (if rooted then str "/" else str ".")
    else (if rooted then str "/" else []) ++ List.intercalate (str "/") out

/-- Model of Go's `path.Join` for two elements: empty elements are dropped
and the slash-joined remainder is cleaned. -/
def pathJoin (a b : Str) : Str :=
  if a ≠ [] then pathClean (a ++ str "/" ++ b)
  else if b ≠ [] then pathClean b
  else []

/-! ### Go standard library: `strings.Replace(s, old, new, 1)` -/

/-- Model of Go's `strings.Replace` with count 1: the first occurrence of
`old` in `s` is replaced by `new`; if `old` does not occur, `s` is
returned unchanged. -/
def replaceFirst (s old new : Str) : Str :=
  if old.isPrefixOf s then new ++ s.drop old.length
  else
    match s with
    | [] => []
    | c :: rest => c :: replaceFirst rest old new

/-! ### Filesystem model and sub-package discovery -/

mutual
/-- A directory entry as returned by `os.ReadDir`: either a plain file or a
subdirectory with its own entries. -/
inductive FsEntry : Type where
  | file (name : Str)
  | dir (name : Str) (entries : FsEntries)
/-- The ordered entry list of one directory. -/
inductive FsEntries : Type where
  | nil
  | cons (e : FsEntry) (rest : FsEntries)
end

/-- Membership of an entry in a directory's entry list. -/
def EntryMem (e : FsEntry) : FsEntries → Prop
  | .nil => False
  | .cons x rest => x = e ∨ EntryMem e rest

/-- Conversion from a plain Lean list of entries (used to write concrete
trees). -/
def fsEntries : List FsEntry → FsEntries
  | [] => .nil
  | e :: rest => .cons e (fsEntries rest)

/-- A file name counts as buildable Go source when it has the `.go` suffix
and not the `_test.go` suffix (`create.go` lines 454-461 / 796-803). -/
def goSourceFile (name : Str) : Bool :=
  (str ".go").isSuffixOf name && !((str "_test.go").isSuffixOf name)

/-- Whether a directory entry is a buildable Go source file. -/
def entryIsGoSource : FsEntry → Bool
  | .file n => goSourceFile n
  | .dir _ _ => false

/-- The `hasGoFile` flag computed by `listAllSubPackages`: the directory
directly contains at least one non-test `.go` file. -/
def hasGoFile : FsEntries → Bool
  | .nil => false
  | .cons e rest => entryIsGoSource e || hasGoFile rest

/-- The directory-entry loop of `listAllSubPackages` in variant A
(`create.go` lines 442-462): subdirectories named `internal` are skipped,
all other subdirectories are recursed into (a recursive call contributes
its own loop results plus the subdirectory itself when it directly contains
a non-test `.go` file). -/
def loopA (root : Str) : FsEntries → List Str
  | .nil => []
  | .cons (.file _) rest => loopA root rest
  | .cons (.dir n es) rest =>
    if n = str "internal" then loopA root rest
    else
      (loopA (root ++ str "/" ++ n) es ++
        (if hasGoFile es then [root ++ str "/" ++ n] else [])) ++ loopA root rest

/-- `listAllSubPackages` of variant A (`create.go` lines 438-469): the
recursively collected subdirectory packages, followed by the root itself
when it directly contains a non-test `.go` file. -/
def listAllSubPackagesA (root : Str) (entries : FsEntries) : List Str :=
  loopA root entries ++ (if hasGoFile entries then [root] else [])

/-- The directory-entry loop of `listAllSubPackages` in variant B
(`create.go` lines 788-804): same as variant A but without the `internal`
skip. -/
def loopB (root : Str) : FsEntries → List Str
  | .nil => []
  | .cons (.file _) rest => loopB root rest
  | .cons (.dir n es) rest =>
    (loopB (root ++ str "/" ++ n) es ++
      (if hasGoFile es then [root ++ str "/" ++ n] else [])) ++ loopB root rest

/-- `listAllSubPackages` of variant B (`create.go` lines 784-811). -/
def listAllSubPackagesB (root : Str) (entries : FsEntries) : List Str :=
  loopB root entries ++ (if hasGoFile entries then [root] else [])

/-- Lexicographic comparison of strings, as used by `sort.Strings`:
`strLe a b` holds when `a` is at most `b` in lexicographic order. -/
def strLe : Str → Str → Bool
  | [], _ => true
  | _ :: _, [] => false
  | a :: as, b :: bs => if a = b then strLe as bs else decide (a < b)

/-- Model of `sort.Strings`: ascending lexicographic order. -/
def sortStrings (l : List Str) : List Str :=
  List.insertionSort (fun a b => strLe a b = true) l

/-- The discovery portion of the run command in variant A (`create.go`
lines 247-254): list all sub-packages, replace the first occurrence of the
project root in each with the module path, and sort. -/
def discoverA (pkgName root : Str) (entries : FsEntries) : List Str :=
  sortStrings ((listAllSubPackagesA root entries).map
    (fun p => replaceFirst p root pkgName))

/-- The discovery portion of the run command in variant B (`create.go`
lines 618-625). -/
def discoverB (pkgName root : Str) (entries : FsEntries) : List Str :=
  sortStrings ((listAllSubPackagesB root entries).map
    (fun p => replaceFirst p root pkgName))

/-! ### `go build` flag handling -/

/-- First loop of `parseGoBuildFlags` (`create.go` lines 473-487 / 815-829):
advance past the first `--` separator; when there is no separator (or
nothing follows it) the result is empty. -/
def dropToSep : List Str → List Str
  | [] => []
  | a :: rest => if a = str "--" then rest else dropToSep rest

/-- Second loop of `parseGoBuildFlags` (`create.go` lines 491-499 /
833-841): copy the flags, except that each `-o` is skipped together with
the element immediately after it (the index is advanced twice). -/
def filterOutputFlag : List Str → List Str
  | [] => []
  | a :: rest =>
    if a = str "-o" then
      match rest with
      | [] => []
      | _ :: rest2 => filterOutputFlag rest2
    else a :: filterOutputFlag rest

/-- `parseGoBuildFlags` (`create.go` lines 471-502, identical at lines
813-844). -/
def parseGoBuildFlags (args : List Str) : List Str :=
  filterOutputFlag (dropToSep args)

/-- Modelled from the spec claim wording: the caller's extra build flags
are those after the `--` separator (none when no separator is present). -/
def specAfterSeparator : List Str → List Str
  | [] => []
  | a :: rest => if a = str "--" then rest else specAfterSeparator rest

/-- Modelled from the spec claim wording: every occurrence of the
output-name flag `-o`, together with the argument immediately following
it, is removed (a trailing lone `-o` is removed by itself). -/
def specStripOutputFlag : List Str → List Str
  | [] => []
  | [a] => if a = str "-o" then [] else [a]
  | a :: b :: rest =>
    if a = str "-o" then specStripOutputFlag rest
    else a :: specStripOutputFlag (b :: rest)

/-! ### Module manifest model (`golang.org/x/mod/modfile` values used by
the tool) -/

/-- A module path/version pair (`module.Version`). -/
structure ModVersion where
  path : Str
  version : Str
deriving DecidableEq

/-- A `require` directive. -/
structure GoRequire where
  mod : ModVersion
deriving DecidableEq

/-- A `replace` directive. -/
structure GoReplace where
  old : ModVersion
  new : ModVersion
deriving DecidableEq

/-- The parts of a parsed or synthesized `go.mod` used by the tool:
module path, `require` list and `replace` list. -/
structure GoModFile where
  modulePath : Str
  require : List GoRequire
  replace : List GoReplace
deriving DecidableEq

/-- Normalization applied to a core-dependency `replace` entry
(`create.go` lines 395-397 in variant A, lines 684-686 in variant B):
when the target version is empty the target path is a local path relative
to the project root and is rewritten to
`path.Clean(path.Join(projectRoot, path))`. -/
def normalizeReplace (projectRoot : Str) (r : GoReplace) : GoReplace :=
  if r.new.version = [] then
    { old := r.old,
      new := { path := pathClean (pathJoin projectRoot r.new.path),
               version := r.new.version } }
  else r

/-- The `require` list of the synthesized manifest in variant A
(`create.go` lines 387-391): only requirements of the core package are
carried forward. -/
def synthRequire (orig : List GoRequire) : List GoRequire :=
  orig.filter (fun r => r.mod.path = shanaCorePackage)

/-- The `replace` list of the synthesized manifest in variant A
(`create.go` lines 393-411): core-package overrides are carried forward
(local paths normalized to absolute), and a replacement of the project's
own module path by the project root is always appended. -/
def synthReplace (projectRoot pkgName : Str) (orig : List GoReplace) : List GoReplace :=
  ((orig.filter (fun r => r.old.path = shanaCorePackage)).map (normalizeReplace projectRoot))
    ++ [{ old := { path := pkgName, version := [] },
          new := { path := projectRoot, version := [] } }]

/-- The manifest synthesized by `findGoModule` in variant A (`create.go`
lines 378-411), as a function of the project root and the parsed original
`go.mod`. -/
def findGoModuleA (projectRoot : Str) (orig : GoModFile) : GoModFile :=
  { modulePath := syntheticModulePath
    require := synthRequire orig.require
    replace := synthReplace projectRoot orig.modulePath orig.replace }

/-- `findGoModule` in variant B (`create.go` lines 774-778) selects the
first `replace` directive whose old path is the core package. -/
def findGoModuleBReplace (orig : GoModFile) : Option GoReplace :=
  orig.replace.find? (fun r => r.old.path = shanaCorePackage)

/-- `findGoModule` in variant B (`create.go` lines 767-772) selects the
first `require` directive of the core package. -/
def findGoModuleBRequire (orig : GoModFile) : Option GoRequire :=
  orig.require.find? (fun r => r.mod.path = shanaCorePackage)

/-- The normalization step performed in the run command of variant B
(`create.go` lines 682-687): when the selected override has an empty
version its path is rewritten relative to the project root. -/
def runReplaceB (projectRoot : Str) (r : Option GoReplace) : Option GoReplace :=
  r.map (normalizeReplace projectRoot)

/-- The content of the `go.mod` rendered by variant B's template
(`create.go` lines 873-881): a fixed synthetic module path, the selected
core requirement and override (if any), and always a replacement of the
project's module path by the project root. -/
structure ManifestB where
  modulePath : Str
  require : Option GoRequire
  replace : Option GoReplace
  projectReplace : GoReplace
deriving DecidableEq

/-- Rendering of variant B's `go.mod` template from the run context
(`create.go` lines 689-697 and 873-881). -/
def renderGoModB (pkgName projectRoot : Str) (req : Option GoRequire)
    (rep : Option GoReplace) : ManifestB :=
  { modulePath := syntheticModulePath
    require := req
    replace := runReplaceB projectRoot rep
    projectReplace :=
      { old := { path := pkgName, version := [] },
        new := { path := projectRoot, version := [] } } }

/-! ### Process pipeline model -/

/-- The three pipeline stages. -/
inductive Stage : Type where
  | tidy
  | build
  | exec
deriving DecidableEq

/-- An external process invocation: executable name and argument list. -/
structure Proc where
  name : Str
  args : List Str
deriving DecidableEq

/-- Errors reported by the run command, following the spec's taxonomy:
`configError` for unsupported protocol / no discoverable packages,
`assertError` for the `errors.Assert` on the resolved project data,
`generationError` for workspace file generation failures, and
`processError s m` for a failing external pipeline stage `s` reported with
message `m`. -/
inductive RunError : Type where
  | configError (msg : Str)
  | assertError
  | generationError
  | processError (stage : Stage) (msg : Str)
deriving DecidableEq

/-- Delivery time of the first interrupt notification relative to the
pipeline stages (`never` when no interrupt is delivered).  Delivery during
a stage is modelled synchronously: the handler's store of the interrupted
flag is visible when that stage's `Run` call returns. -/
inductive InterruptTime : Type where
  | beforeStages
  | duringTidy
  | beforeBuild
  | duringBuild
  | beforeExec
  | duringExec
  | never
deriving DecidableEq

/-- Linear position of an interrupt delivery time; the interrupted flag is
set at a given checkpoint exactly when the delivery position is at or
before the checkpoint. -/
def InterruptTime.pos : InterruptTime → Nat
  | .beforeStages => 0
  | .duringTidy => 1
  | .beforeBuild => 2
  | .duringBuild => 3
  | .beforeExec => 4
  | .duringExec => 5
  | .never => 6

/-- Inputs of one `run` invocation: the resolved project data (the model
assumes `findGoModule` succeeded, i.e. `go env GOMOD` reported a manifest
that parsed), the command-line arguments as received by the command, the
success/failure outcome of each external process were it to run, whether
workspace file generation fails, and the interrupt delivery time. -/
structure RunEnv where
  projectRoot : Str
  pkgName : Str
  entries : FsEntries
  args : List Str
  genFails : Bool
  tidyFails : Bool
  buildFails : Bool
  execFails : Bool
  intTime : InterruptTime

/-- Observable outcome of one `run` invocation: the reported error (if
any), the external processes spawned in order, and whether the ephemeral
workspace directory was created and whether it had been removed by the
time the invocation returned. -/
structure RunResult where
  err : Option RunError
  spawned : List Proc
  workspaceCreated : Bool
  workspaceRemoved : Bool
deriving DecidableEq

/-- The module-resolution query spawned by `findGoModule`
(`create.go` line 351 / 748): `go env GOMOD`. -/
def goEnvProc : Proc := { name := str "go", args := [str "env", str "GOMOD"] }

/-- The tidy stage process (`create.go` line 332 / 708): `go mod tidy`. -/
def tidyProc : Proc := { name := str "go", args := [str "mod", str "tidy"] }

/-- The argument list of the compile stage (`create.go` lines 335-336 /
719-720): `build -o shana-build-service` followed by the parsed caller
build flags. -/
def goBuildArgs (args : List Str) : List Str :=
  str "build" :: str "-o" :: shanaBuildServiceBinaryName :: parseGoBuildFlags args

/-- The compile stage process. -/
def buildProc (args : List Str) : Proc := { name := str "go", args := goBuildArgs args }

/-- The execute stage process (`create.go` line 344 / 732): the built
binary, no arguments. -/
def execProc : Proc := { name := str "./" ++ shanaBuildServiceBinaryName, args := [] }

/-- The stage section of variant A's run command (`create.go` lines
264-346), entered after the workspace directory has been created; from
here on `defer os.RemoveAll(cacheDir)` guarantees workspace removal on
every exit path.  Each `runCommand` call returns immediately (spawning
nothing, reporting no error) when the interrupted flag is already set.
Tidy and build failures are thrown (`errors.Check`); the execute stage's
error is discarded (`create.go` lines 342-344). -/
def stagesA (env : RunEnv) : RunResult :=
  if env.genFails then
    { err := some .generationError, spawned := [goEnvProc],
      workspaceCreated := true, workspaceRemoved := true }
  else if env.intTime.pos ≤ 0 then
    { err := none, spawned := [goEnvProc],
      workspaceCreated := true, workspaceRemoved := true }
  else if env.tidyFails then
    { err := some (.processError .tidy (str "Fail to tidy the go.mod file.")),
      spawned := [goEnvProc, tidyProc],
      workspaceCreated := true, workspaceRemoved := true }
  else if env.intTime.pos ≤ 2 then
    { err := none, spawned := [goEnvProc, tidyProc],
      workspaceCreated := true, workspaceRemoved := true }
  else if env.buildFails then
    { err := some (.processError .build (str "Fail to build the service.")),
      spawned := [goEnvProc, tidyProc, buildProc env.args],
      workspaceCreated := true, workspaceRemoved := true }
  else if env.intTime.pos ≤ 4 then
    { err := none, spawned := [goEnvProc, tidyProc, buildProc env.args],
      workspaceCreated := true, workspaceRemoved := true }
  else
    { err := none, spawned := [goEnvProc, tidyProc, buildProc env.args, execProc],
      workspaceCreated := true, workspaceRemoved := true }

/-- Variant A's run command (`create.go` lines 241-347).  `findGoModule`
spawns the `go env GOMOD` query first; then `errors.Assert` checks the
resolved project data; then sub-packages are discovered and sorted and the
empty set is a terminal error; then `listRunTemplates` validates the
protocol argument (throwing on an unsupported value) before the workspace
directory is created. -/
def runPipelineA (env : RunEnv) : RunResult :=
  if env.projectRoot = [] ∨ env.pkgName = [] then
    { err := some .assertError, spawned := [goEnvProc],
      workspaceCreated := false, workspaceRemoved := false }
  else if discoverA env.pkgName env.projectRoot env.entries = [] then
    { err := some (.configError (str "Fail to find any Go package in current project.")),
      spawned := [goEnvProc], workspaceCreated := false, workspaceRemoved := false }
  else if env.args.headD [] ≠ str "httpjson" then
    { err := some (.configError (str "unsupported server-proto")),
      spawned := [goEnvProc], workspaceCreated := false, workspaceRemoved := false }
  else stagesA env

/-- The stage section of variant B's run command (`create.go` lines
636-743).  The interrupted flag is checked explicitly before each stage
(lines 703, 714, 727); every stage's failure, including the execute
stage's, is thrown (`errors.If(...).Throw`, lines 712, 725, 736). -/
def stagesB (env : RunEnv) : RunResult :=
  if env.genFails then
    { err := some .generationError, spawned := [goEnvProc],
      workspaceCreated := true, workspaceRemoved := true }
  else if env.intTime.pos ≤ 0 then
    { err := none, spawned := [goEnvProc],
      workspaceCreated := true, workspaceRemoved := true }
  else if env.tidyFails then
    { err := some (.processError .tidy (str "Fail to tidy the go.mod file.")),
      spawned := [goEnvProc, tidyProc],
      workspaceCreated := true, workspaceRemoved := true }
  else if env.intTime.pos ≤ 2 then
    { err := none, spawned := [goEnvProc, tidyProc],
      workspaceCreated := true, workspaceRemoved := true }
  else if env.buildFails then
    { err := some (.processError .build (str "Fail to build the service.")),
      spawned := [goEnvProc, tidyProc, buildProc env.args],
      workspaceCreated := true, workspaceRemoved := true }
  else if env.intTime.pos ≤ 4 then
    { err := none, spawned := [goEnvProc, tidyProc, buildProc env.args],
      workspaceCreated := true, workspaceRemoved := true }
  else if env.execFails then
    { err := some (.processError .exec (str "Fail to run the service.")),
      spawned := [goEnvProc, tidyProc, buildProc env.args, execProc],
      workspaceCreated := true, workspaceRemoved := true }
  else
    { err := none, spawned := [goEnvProc, tidyProc, buildProc env.args, execProc],
      workspaceCreated := true, workspaceRemoved := true }

/-- Variant B's run command (`create.go` lines 612-744); the same prelude
structure as variant A except that discovery does not skip `internal`
directories and the unsupported-protocol message differs. -/
def runPipelineB (env : RunEnv) : RunResult :=
  if env.projectRoot = [] ∨ env.pkgName = [] then
    { err := some .assertError, spawned := [goEnvProc],
      workspaceCreated := false, workspaceRemoved := false }
  else if discoverB env.pkgName env.projectRoot env.entries = [] then
    { err := some (.configError (str "Fail to find any Go package in current project.")),
      spawned := [goEnvProc], workspaceCreated := false, workspaceRemoved := false }
  else if env.args.headD [] ≠ str "httpjson" then
    { err := some (.configError (str "unsupported server type")),
      spawned := [goEnvProc], workspaceCreated := false, workspaceRemoved := false }
  else stagesB env

/-! ### Interrupt handler model -/

/-- Kind of signal sent to a process: `term` is the graceful request
(SIGTERM), `kill` would be a forced kill (never sent by this tool). -/
inductive SigKind : Type where
  | term
  | kill
deriving DecidableEq

/-- Variant A's SIGINT handler goroutine (`create.go` lines 293-308)
processing the delivered notifications in order.  The input list gives,
for each notification, the contents of the process-handle slot at that
moment; the result is the final value of the interrupted flag and the list
of signals sent.  On a notification: when the goroutine has already
returned (`alive = false`) nothing happens; when the interrupted flag is
already set the goroutine returns; otherwise it stores `true` and sends
SIGTERM to the process currently in the slot, if any. -/
def runHandlerA : Bool → Bool → List (Option Proc) → Bool × List (Proc × SigKind)
  | interrupted, _, [] => (interrupted, [])
  | interrupted, false, _ :: rest => runHandlerA interrupted false rest
  | interrupted, true, slot :: rest =>
    if interrupted then runHandlerA interrupted false rest
    else
      let r := runHandlerA true true rest
      (r.1, (slot.toList.map (fun p => (p, SigKind.term))) ++ r.2)

/-- Variant B's SIGINT handler goroutine (`create.go` lines 651-667): on
every notification it stores `true` into the interrupted flag and sends
SIGTERM to the process currently in the slot, if any. -/
def runHandlerB : Bool → List (Option Proc) → Bool × List (Proc × SigKind)
  | interrupted, [] => (interrupted, [])
  | _, slot :: rest =>
    let r := runHandlerB true rest
    (r.1, (slot.toList.map (fun p => (p, SigKind.term))) ++ r.2)

/-- Totality of the lexicographic string order used by `sort.Strings`. -/
instance : IsTotal Str (fun a b => strLe a b = true) := ⟨by
  intro a b
  induction a generalizing b with
  | nil => exact Or.inl rfl
  | cons x xs ih =>
    cases b with
    | nil => exact Or.inr rfl
    | cons y ys =>
      by_cases h : x = y
      · subst h
        simpa [strLe] using ih ys
      · rcases lt_or_gt_of_ne h with hlt | hgt
        · exact Or.inl (by simp [strLe, h, hlt])
        · refine Or.inr ?_
          simp [strLe, Ne.symm h, hgt]⟩

/-- Transitivity of the lexicographic string order used by `sort.Strings`. -/
instance : IsTrans Str (fun a b => strLe a b = true) := ⟨by
  intro a b c hab hbc
  induction a generalizing b c with
  | nil => rfl
  | cons x xs ih =>
    cases b with
    | nil => simp [strLe] at hab
    | cons y ys =>
      cases c with
      | nil => simp [strLe] at hbc
      | cons z zs =>
        by_cases hxy : x = y <;> by_cases hyz : y = z
        · subst hxy; subst hyz
          simp only [strLe, if_pos rfl] at hab hbc ⊢
          exact ih ys zs hab hbc
        · subst hxy
          simpa [strLe, hyz] using hbc
        · subst hyz
          simpa [strLe, hxy] using hab
        · simp only [strLe, if_neg hxy, decide_eq_true_eq] at hab
          simp only [strLe, if_neg hyz, decide_eq_true_eq] at hbc
          have hxz : x < z := lt_trans hab hbc
          simp [strLe, ne_of_lt hxz, hxz]⟩

/-! ### Reachability of directories in the project tree -/

/-- The directories visited by variant A's recursive discovery: the root
itself, and any subdirectory of a visited directory whose name is not
`internal`, with its path formed by slash-joining. -/
inductive ReachesA (root : Str) (entries : FsEntries) : Str → FsEntries → Prop where
  | refl : ReachesA root entries root entries
  | step {p : Str} {es : FsEntries} {n : Str} {es2 : FsEntries} :
      ReachesA root entries p es → EntryMem (FsEntry.dir n es2) es → n ≠ str "internal" →
      ReachesA root entries (p ++ str "/" ++ n) es2

/-- The directories visited by variant B's recursive discovery: the root
itself and every subdirectory of a visited directory (no skip set). -/
inductive ReachesB (root : Str) (entries : FsEntries) : Str → FsEntries → Prop where
  | refl : ReachesB root entries root entries
  | step {p : Str} {es : FsEntries} {n : Str} {es2 : FsEntries} :
      ReachesB root entries p es → EntryMem (FsEntry.dir n es2) es →
      ReachesB root entries (p ++ str "/" ++ n) es2

/-! ### Concrete inputs used to instantiate the theorems -/

/-- A small concrete run environment: a resolved project with one
buildable source file at the root, protocol `httpjson`, all external
processes succeeding, no interrupt. -/
def baseEnv : RunEnv where
  projectRoot := str "/home/dev/proj"
  pkgName := str "example.com/svc"
  entries := fsEntries [FsEntry.file (str "main.go")]
  args := [str "httpjson"]
  genFails := false
  tidyFails := false
  buildFails := false
  execFails := false
  intTime := InterruptTime.never

/-- A concrete original `go.mod` carrying a local (empty-version) override
of the core package, a pinned override of the core package, an override of
an unrelated package, and a core requirement. -/
def origWithLocalCore : GoModFile where
  modulePath := str "example.com/svc"
  require := [{ mod := { path := shanaCorePackage, version := str "v0.5.1" } },
              { mod := { path := str "github.com/other/lib", version := str "v1.0.0" } }]
  replace := [{ old := { path := shanaCorePackage, version := [] },
                new := { path := str "../core", version := [] } },
              { old := { path := shanaCorePackage, version := [] },
                new := { path := str "github.com/fork/core", version := str "v0.9.0" } },
              { old := { path := str "github.com/other/lib", version := [] },
                new := { path := str "../lib", version := [] } }]

/-- A concrete original `go.mod` whose module path happens to equal the
fixed synthetic module path used for the generated workspace manifest. -/
def origCollidingModule : GoModFile where
  modulePath := syntheticModulePath
  require := []
  replace := []

/-! ## Helper lemmas -/

/-- Replacing the first occurrence of a prefix replaces it at the front. -/
theorem replaceFirst_append (old t new : Str) :
    replaceFirst (old ++ t) old new = new ++ t := by
  rw [replaceFirst.eq_def, if_pos (List.isPrefixOf_iff_prefix.2 (List.prefix_append old t)),
    List.drop_left]

/-- Spine induction principle for directory entry lists. -/
theorem fsSpineInduction {motive : FsEntries → Prop} (h0 : motive .nil)
    (h1 : ∀ e rest, motive rest → motive (.cons e rest)) : ∀ es, motive es
  | .nil => h0
  | .cons e rest => h1 e rest (fsSpineInduction h0 h1 rest)

/-- A member subtree is smaller than the entry list containing it. -/
theorem entryMem_sizeOf {n : Str} {es2 : FsEntries} :
    ∀ {es : FsEntries}, EntryMem (FsEntry.dir n es2) es → sizeOf es2 < sizeOf es
  | .nil, h => h.elim
  | .cons e rest, h => by
    rcases h with he | hrest
    · subst he
      simp
      omega
    · have := entryMem_sizeOf hrest
      simp
      omega

/-- Every path produced by variant A's discovery loop extends the root. -/
theorem loopA_prefix (root : Str) (es : FsEntries) :
    ∀ p ∈ loopA root es, ∃ t, p = root ++ t := by
  induction root, es using loopA.induct with
  | case1 root => simp [loopA]
  | case2 root name rest ih => simpa [loopA] using ih
  | case3 root es rest ih => simpa [loopA] using ih
  | case4 root n es rest hne ih1 ih2 =>
    intro p hp
    rw [loopA, if_neg hne] at hp
    rcases List.mem_append.1 hp with hp | hp
    · rcases List.mem_append.1 hp with hp | hp
      · obtain ⟨t, rfl⟩ := ih1 p hp
        exact ⟨str "/" ++ n ++ t, by simp⟩
      · have hp2 : p = root ++ str "/" ++ n := by
          by_cases hg : hasGoFile es = true
          · rw [if_pos hg] at hp; simpa using hp
          · rw [if_neg hg] at hp; simp at hp
        exact ⟨str "/" ++ n, by simp [hp2]⟩
    · exact ih2 p hp

/-- Every path produced by variant A's discovery extends the root. -/
theorem listAllSubPackagesA_prefix (root : Str) (es : FsEntries) :
    ∀ p ∈ listAllSubPackagesA root es, ∃ t, p = root ++ t := by
  intro p hp
  rw [listAllSubPackagesA] at hp
  rcases List.mem_append.1 hp with hp | hp
  · exact loopA_prefix root es p hp
  · have hp2 : p = root := by
      by_cases hg : hasGoFile es = true
      · rw [if_pos hg] at hp; simpa using hp
      · rw [if_neg hg] at hp; simp at hp
    exact ⟨[], by simp [hp2]⟩

/-- Every path produced by variant B's discovery loop extends the root. -/
theorem loopB_prefix (root : Str) (es : FsEntries) :
    ∀ p ∈ loopB root es, ∃ t, p = root ++ t := by
  induction root, es using loopB.induct with
  | case1 root => simp [loopB]
  | case2 root name rest ih => simpa [loopB] using ih
  | case3 root n es rest ih1 ih2 =>
    intro p hp
    rw [loopB] at hp
    rcases List.mem_append.1 hp with hp | hp
    · rcases List.mem_append.1 hp with hp | hp
      · obtain ⟨t, rfl⟩ := ih1 p hp
        exact ⟨str "/" ++ n ++ t, by simp⟩
      · have hp2 : p = root ++ str "/" ++ n := by
          by_cases hg : hasGoFile es = true
          · rw [if_pos hg] at hp; simpa using hp
          · rw [if_neg hg] at hp; simp at hp
        exact ⟨str "/" ++ n, by simp [hp2]⟩
    · exact ih2 p hp

/-- Every path produced by variant B's discovery extends the root. -/
theorem listAllSubPackagesB_prefix (root : Str) (es : FsEntries) :
    ∀ p ∈ listAllSubPackagesB root es, ∃ t, p = root ++ t := by
  intro p hp
  rw [listAllSubPackagesB] at hp
  rcases List.mem_append.1 hp with hp | hp
  · exact loopB_prefix root es p hp
  · have hp2 : p = root := by
      by_cases hg : hasGoFile es = true
      · rw [if_pos hg] at hp; simpa using hp
      · rw [if_neg hg] at hp; simp at hp
    exact ⟨[], by simp [hp2]⟩

/-- A root with a direct non-test `.go` file lists itself. -/
theorem mem_listAllSubPackagesA_self (root : Str) (es : FsEntries)
    (h : hasGoFile es = true) : root ∈ listAllSubPackagesA root es := by
  rw [listAllSubPackagesA, if_pos h]
  exact List.mem_append_right _ (List.mem_singleton.2 rfl)

/-- A root with a direct non-test `.go` file lists itself (variant B). -/
theorem mem_listAllSubPackagesB_self (root : Str) (es : FsEntries)
    (h : hasGoFile es = true) : root ∈ listAllSubPackagesB root es := by
  rw [listAllSubPackagesB, if_pos h]
  exact List.mem_append_right _ (List.mem_singleton.2 rfl)

/-- Variant A: every loop result comes from a non-skipped subdirectory. -/
theorem loopA_mem_elim (root : Str) (es : FsEntries) :
    ∀ p ∈ loopA root es, ∃ n es2, EntryMem (FsEntry.dir n es2) es ∧
      n ≠ str "internal" ∧ p ∈ listAllSubPackagesA (root ++ str "/" ++ n) es2 := by
  induction root, es using loopA.induct with
  | case1 root => simp [loopA]
  | case2 root name rest ih =>
    intro p hp
    rw [loopA] at hp
    obtain ⟨n, es2, hm, hn, hp2⟩ := ih p hp
    exact ⟨n, es2, Or.inr hm, hn, hp2⟩
  | case3 root es rest ih =>
    intro p hp
    rw [loopA, if_pos rfl] at hp
    obtain ⟨n, es2, hm, hn, hp2⟩ := ih p hp
    exact ⟨n, es2, Or.inr hm, hn, hp2⟩
  | case4 root n es rest hne ih1 ih2 =>
    intro p hp
    rw [loopA, if_neg hne] at hp
    rcases List.mem_append.1 hp with hp | hp
    · exact ⟨n, es, Or.inl rfl, hne, hp⟩
    · obtain ⟨n2, es2, hm, hn2, hp2⟩ := ih2 p hp
      exact ⟨n2, es2, Or.inr hm, hn2, hp2⟩

/-- Variant B: every loop result comes from a subdirectory. -/
theorem loopB_mem_elim (root : Str) (es : FsEntries) :
    ∀ p ∈ loopB root es, ∃ n es2, EntryMem (FsEntry.dir n es2) es ∧
      p ∈ listAllSubPackagesB (root ++ str "/" ++ n) es2 := by
  induction root, es using loopB.induct with
  | case1 root => simp [loopB]
  | case2 root name rest ih =>
    intro p hp
    rw [loopB] at hp
    obtain ⟨n, es2, hm, hp2⟩ := ih p hp
    exact ⟨n, es2, Or.inr hm, hp2⟩
  | case3 root n es rest ih1 ih2 =>
    intro p hp
    rw [loopB] at hp
    rcases List.mem_append.1 hp with hp | hp
    · exact ⟨n, es, Or.inl rfl, hp⟩
    · obtain ⟨n2, es2, hm, hp2⟩ := ih2 p hp
      exact ⟨n2, es2, Or.inr hm, hp2⟩

/-- Variant A: the packages of a non-skipped member subdirectory are all
collected by the enclosing directory's loop. -/
theorem listA_sub_of_mem (root n : Str) (es2 : FsEntries) (hne : n ≠ str "internal") :
    ∀ es : FsEntries, EntryMem (FsEntry.dir n es2) es →
      ∀ x ∈ listAllSubPackagesA (root ++ str "/" ++ n) es2, x ∈ loopA root es := by
  refine fsSpineInduction ?_ ?_
  · intro h; exact h.elim
  · intro e rest ih hm x hx
    rcases hm with he | hrest
    · subst he
      rw [loopA, if_neg hne]
      exact List.mem_append_left _ hx
    · have hx2 := ih hrest x hx
      cases e with
      | file nm => rw [loopA]; exact hx2
      | dir m es3 =>
        rw [loopA]
        by_cases hm2 : m = str "internal"
        · rw [if_pos hm2]; exact hx2
        · rw [if_neg hm2]; exact List.mem_append_right _ hx2

/-- Variant B: the packages of a member subdirectory are all collected by
the enclosing directory's loop. -/
theorem listB_sub_of_mem (root n : Str) (es2 : FsEntries) :
    ∀ es : FsEntries, EntryMem (FsEntry.dir n es2) es →
      ∀ x ∈ listAllSubPackagesB (root ++ str "/" ++ n) es2, x ∈ loopB root es := by
  refine fsSpineInduction ?_ ?_
  · intro h; exact h.elim
  · intro e rest ih hm x hx
    rcases hm with he | hrest
    · subst he
      rw [loopB]
      exact List.mem_append_left _ hx
    · have hx2 := ih hrest x hx
      cases e with
      | file nm => rw [loopB]; exact hx2
      | dir m es3 =>
        rw [loopB]
        exact List.mem_append_right _ hx2

/-- Variant A: the packages of a reached directory are all listed from the
original root. -/
theorem reachesA_sub {root : Str} {es : FsEntries} {p : Str} {es2 : FsEntries}
    (h : ReachesA root es p es2) :
    ∀ x ∈ listAllSubPackagesA p es2, x ∈ listAllSubPackagesA root es := by
  induction h with
  | refl => exact fun x hx => hx
  | step hr hm hne ih =>
    intro x hx
    refine ih x (List.mem_append_left _ ?_)
    exact listA_sub_of_mem _ _ _ hne _ hm x hx

/-- Variant B: the packages of a reached directory are all listed from the
original root. -/
theorem reachesB_sub {root : Str} {es : FsEntries} {p : Str} {es2 : FsEntries}
    (h : ReachesB root es p es2) :
    ∀ x ∈ listAllSubPackagesB p es2, x ∈ listAllSubPackagesB root es := by
  induction h with
  | refl => exact fun x hx => hx
  | step hr hm ih =>
    intro x hx
    refine ih x (List.mem_append_left _ ?_)
    exact listB_sub_of_mem _ _ _ _ hm x hx

/-- Variant A: a reach rooted at a member subdirectory lifts to a reach
rooted at the enclosing directory. -/
theorem reachesA_through {root : Str} {es : FsEntries} {n : Str} {es2 : FsEntries}
    {p : Str} {es3 : FsEntries} (hm : EntryMem (FsEntry.dir n es2) es)
    (hne : n ≠ str "internal") (h : ReachesA (root ++ str "/" ++ n) es2 p es3) :
    ReachesA root es p es3 := by
  induction h with
  | refl => exact ReachesA.step ReachesA.refl hm hne
  | step hr hm2 hne2 ih => exact ReachesA.step ih hm2 hne2

/-- Variant B: a reach rooted at a member subdirectory lifts to a reach
rooted at the enclosing directory. -/
theorem reachesB_through {root : Str} {es : FsEntries} {n : Str} {es2 : FsEntries}
    {p : Str} {es3 : FsEntries} (hm : EntryMem (FsEntry.dir n es2) es)
    (h : ReachesB (root ++ str "/" ++ n) es2 p es3) :
    ReachesB root es p es3 := by
  induction h with
  | refl => exact ReachesB.step ReachesB.refl hm
  | step hr hm2 ih => exact ReachesB.step ih hm2

/-- Variant A: every listed package is a reached directory with a direct
non-test `.go` file. -/
theorem mem_listA_reaches (root : Str) (es : FsEntries) (p : Str)
    (h : p ∈ listAllSubPackagesA root es) :
    ∃ es2, ReachesA root es p es2 ∧ hasGoFile es2 = true := by
  rw [listAllSubPackagesA] at h
  rcases List.mem_append.1 h with h | h
  · obtain ⟨n, es2, hm, hne, hp⟩ := loopA_mem_elim root es p h
    obtain ⟨es3, hr, hg⟩ := mem_listA_reaches (root ++ str "/" ++ n) es2 p hp
    exact ⟨es3, reachesA_through hm hne hr, hg⟩
  · by_cases hg : hasGoFile es = true
    · rw [if_pos hg] at h
      rcases List.mem_singleton.1 h with rfl
      exact ⟨es, ReachesA.refl, hg⟩
    · rw [if_neg hg] at h
      simp at h
termination_by sizeOf es
decreasing_by exact entryMem_sizeOf hm

/-- Variant B: every listed package is a reached directory with a direct
non-test `.go` file. -/
theorem mem_listB_reaches (root : Str) (es : FsEntries) (p : Str)
    (h : p ∈ listAllSubPackagesB root es) :
    ∃ es2, ReachesB root es p es2 ∧ hasGoFile es2 = true := by
  rw [listAllSubPackagesB] at h
  rcases List.mem_append.1 h with h | h
  · obtain ⟨n, es2, hm, hp⟩ := loopB_mem_elim root es p h
    obtain ⟨es3, hr, hg⟩ := mem_listB_reaches (root ++ str "/" ++ n) es2 p hp
    exact ⟨es3, reachesB_through hm hr, hg⟩
  · by_cases hg : hasGoFile es = true
    · rw [if_pos hg] at h
      rcases List.mem_singleton.1 h with rfl
      exact ⟨es, ReachesB.refl, hg⟩
    · rw [if_neg hg] at h
      simp at h
termination_by sizeOf es
decreasing_by exact entryMem_sizeOf hm

/-- The prefix replacement performed by the run command rewrites each
discovered path to the module path followed by the root-relative part. -/
theorem discoverA_map_eq (pkgName root : Str) (es : FsEntries) :
    (listAllSubPackagesA root es).map (fun p => replaceFirst p root pkgName)
      = (listAllSubPackagesA root es).map (fun p => pkgName ++ p.drop root.length) := by
  apply List.map_congr_left
  intro p hp
  obtain ⟨t, rfl⟩ := listAllSubPackagesA_prefix root es p hp
  rw [replaceFirst_append, List.drop_left]

/-- The prefix replacement performed by the run command rewrites each
discovered path to the module path followed by the root-relative part
(variant B). -/
theorem discoverB_map_eq (pkgName root : Str) (es : FsEntries) :
    (listAllSubPackagesB root es).map (fun p => replaceFirst p root pkgName)
      = (listAllSubPackagesB root es).map (fun p => pkgName ++ p.drop root.length) := by
  apply List.map_congr_left
  intro p hp
  obtain ⟨t, rfl⟩ := listAllSubPackagesB_prefix root es p hp
  rw [replaceFirst_append, List.drop_left]

/-- `sortStrings` sorts. -/
theorem sortStrings_sorted (l : List Str) :
    List.Sorted (fun a b => strLe a b = true) (sortStrings l) :=
  List.sorted_insertionSort _ l

/-- `sortStrings` permutes. -/
theorem sortStrings_perm (l : List Str) : (sortStrings l).Perm l :=
  List.perm_insertionSort _ l

/-- Variant A's handler does nothing more once the goroutine returned. -/
theorem runHandlerA_dead (interrupted : Bool) :
    ∀ l, runHandlerA interrupted false l = (interrupted, []) := by
  intro l
  induction l with
  | nil => rw [runHandlerA]
  | cons s rest ih => rw [runHandlerA]; exact ih

/-- Variant A's handler returns on the first notification that finds the
flag already set, and does nothing afterwards. -/
theorem runHandlerA_stop : ∀ l, runHandlerA true true l = (true, []) := by
  intro l
  cases l with
  | nil => rw [runHandlerA]
  | cons s rest => rw [runHandlerA, if_pos rfl]; exact runHandlerA_dead true rest

/-- Variant B's handler reports the flag `true` whenever the flag was
already `true` or at least one notification was processed. -/
theorem runHandlerB_flag : ∀ l : List (Option Proc), (runHandlerB true l).1 = true := by
  intro l
  cases l with
  | nil => rw [runHandlerB]
  | cons s rest =>
    rw [runHandlerB]
    exact runHandlerB_flag rest
termination_by l => l.length

/-- Variant B's handler sends exactly one graceful request per observed
notification whose slot is occupied. -/
theorem runHandlerB_sigs (interrupted : Bool) : ∀ l : List (Option Proc),
    (runHandlerB interrupted l).2 =
      (l.map (fun sl => sl.toList.map (fun p => (p, SigKind.term)))).flatten := by
  intro l
  induction l generalizing interrupted with
  | nil => rw [runHandlerB]; simp
  | cons s rest ih => rw [runHandlerB]; simp [ih true]

/-- The two loops of `parseGoBuildFlags` coincide with the spec's
description of the separator handling. -/
theorem dropToSep_eq_spec : ∀ args : List Str, dropToSep args = specAfterSeparator args := by
  intro args
  induction args with
  | nil => rfl
  | cons a rest ih =>
    rw [dropToSep, specAfterSeparator]
    by_cases h : a = str "--"
    · rw [if_pos h, if_pos h]
    · rw [if_neg h, if_neg h]; exact ih

/-- The `-o` filter loop of `parseGoBuildFlags` coincides with the spec's
description of output-flag-pair removal. -/
theorem filterOutputFlag_eq_spec : ∀ l : List Str,
    filterOutputFlag l = specStripOutputFlag l := by
  intro l
  induction l using specStripOutputFlag.induct with
  | case1 => rfl
  | case2 => simp [filterOutputFlag, specStripOutputFlag]
  | case3 a h => simp [filterOutputFlag, specStripOutputFlag, h]
  | case4 b rest ih => simp [filterOutputFlag, specStripOutputFlag, ih]
  | case5 a b rest h ih => simp [filterOutputFlag, specStripOutputFlag, h, ih]

/-- Projections of the compile process that do not depend on the caller
flags. -/
theorem buildProc_name (args : List Str) : (buildProc args).name = str "go" := rfl

/-- The first argument of the compile process is always `build`. -/
theorem buildProc_headArg (args : List Str) : (buildProc args).args.headD [] = str "build" := rfl

/-- The execute process is distinct from the module query, tidy and
compile processes. -/
theorem execProc_ne (args : List Str) :
    execProc ≠ goEnvProc ∧ execProc ≠ tidyProc ∧ execProc ≠ buildProc args := by
  refine ⟨by decide, by decide, ?_⟩
  intro h
  have hn : execProc.name = (buildProc args).name := congrArg Proc.name h
  rw [buildProc_name] at hn
  exact absurd hn (by decide)

/-- The compile process is distinct from the module query and tidy
processes. -/
theorem buildProc_ne (args : List Str) :
    buildProc args ≠ goEnvProc ∧ buildProc args ≠ tidyProc := by
  constructor
  · intro h
    have hn : (buildProc args).args.headD [] = goEnvProc.args.headD [] :=
      congrArg (fun p => p.args.headD []) h
    rw [buildProc_headArg] at hn
    exact absurd hn (by decide)
  · intro h
    have hn : (buildProc args).args.headD [] = tidyProc.args.headD [] :=
      congrArg (fun p => p.args.headD []) h
    rw [buildProc_headArg] at hn
    exact absurd hn (by decide)

/-- The tidy process is distinct from the module query process. -/
theorem tidyProc_ne : tidyProc ≠ goEnvProc := by decide

/-! ## Claim theorems -/

/-- Claim C8 (confirmed): for every caller-supplied argument list, the
compile stage process is `go` invoked with the fixed output name
`shana-build-service` (`build -o shana-build-service`), followed by the
caller's extra build flags — those after the `--` separator — from which
every occurrence of the `-o` flag together with the argument immediately
following it has been removed. -/
theorem claim_C8 (args : List Str) :
    buildProc args =
      { name := str "go",
        args := str "build" :: str "-o" :: shanaBuildServiceBinaryName ::
          specStripOutputFlag (specAfterSeparator args) } := by
  unfold buildProc goBuildArgs parseGoBuildFlags
  rw [dropToSep_eq_spec, filterOutputFlag_eq_spec]

/-- Claim C7 (confirmed): in both variants, discovery returns one entry
per qualifying directory (the sorted output is a permutation of the raw
qualifying-directory list rewritten entry-wise, so the lengths agree), the
output is sorted lexicographically, and each entry is the qualifying
directory's path with the project-root prefix replaced by the module
identity (`pkgName ++ root-relative part`).  Determinism across runs is
immediate because the model is a pure function of the tree. -/
theorem claim_C7 (pkgName root : Str) (es : FsEntries) :
    (List.Sorted (fun a b => strLe a b = true) (discoverA pkgName root es)
      ∧ (discoverA pkgName root es).Perm
          ((listAllSubPackagesA root es).map (fun p => pkgName ++ p.drop root.length))
      ∧ (discoverA pkgName root es).length = (listAllSubPackagesA root es).length)
    ∧ (List.Sorted (fun a b => strLe a b = true) (discoverB pkgName root es)
      ∧ (discoverB pkgName root es).Perm
          ((listAllSubPackagesB root es).map (fun p => pkgName ++ p.drop root.length))
      ∧ (discoverB pkgName root es).length = (listAllSubPackagesB root es).length) := by
  have hA : (discoverA pkgName root es).Perm
      ((listAllSubPackagesA root es).map (fun p => pkgName ++ p.drop root.length)) := by
    unfold discoverA
    rw [discoverA_map_eq]
    exact sortStrings_perm _
  have hB : (discoverB pkgName root es).Perm
      ((listAllSubPackagesB root es).map (fun p => pkgName ++ p.drop root.length)) := by
    unfold discoverB
    rw [discoverB_map_eq]
    exact sortStrings_perm _
  exact ⟨⟨sortStrings_sorted _, hA, hA.length_eq.trans (List.length_map _ _)⟩,
    ⟨sortStrings_sorted _, hB, hB.length_eq.trans (List.length_map _ _)⟩⟩

/-- Claim C10 (confirmed): when the project root itself directly contains
a non-test `.go` file, the discovered set contains the bare module
identity (in both variants); discovery is not limited to strict
subdirectories. -/
theorem claim_C10 (pkgName root : Str) (es : FsEntries) (h : hasGoFile es = true) :
    pkgName ∈ discoverA pkgName root es ∧ pkgName ∈ discoverB pkgName root es := by
  have hroot : replaceFirst root root pkgName = pkgName := by
    have := replaceFirst_append root [] pkgName
    simpa using this
  constructor
  · have hmap : pkgName ∈ (listAllSubPackagesA root es).map
        (fun p => replaceFirst p root pkgName) :=
      List.mem_map.2 ⟨root, mem_listAllSubPackagesA_self root es h, hroot⟩
    exact (sortStrings_perm _).mem_iff.2 hmap
  · have hmap : pkgName ∈ (listAllSubPackagesB root es).map
        (fun p => replaceFirst p root pkgName) :=
      List.mem_map.2 ⟨root, mem_listAllSubPackagesB_self root es h, hroot⟩
    exact (sortStrings_perm _).mem_iff.2 hmap

/-- Witness for claim C10 at a concrete project tree. -/
theorem claim_C10_witness :
    str "example.com/svc" ∈ discoverA (str "example.com/svc") (str "/home/dev/proj")
        (fsEntries [FsEntry.file (str "main.go")])
    ∧ str "example.com/svc" ∈ discoverB (str "example.com/svc") (str "/home/dev/proj")
        (fsEntries [FsEntry.file (str "main.go")]) :=
  claim_C10 _ _ _ (by decide)

/-- Claim C6 (confirmed): in both variants, a directory path is discovered
exactly when it is a recursively visited directory (for variant A the
fixed skip set is the directory name `internal`; variant B has no skip
set) that directly contains at least one `.go` file not suffixed
`_test.go`.  In particular a directory whose only source files are
test-suffixed has `hasGoFile = false` and is excluded, while a directory
containing both a test-suffixed and a non-test source file has
`hasGoFile = true` and is included. -/
theorem claim_C6 (root p : Str) (es : FsEntries) :
    (p ∈ listAllSubPackagesA root es ↔
      ∃ es2, ReachesA root es p es2 ∧ hasGoFile es2 = true)
    ∧ (p ∈ listAllSubPackagesB root es ↔
      ∃ es2, ReachesB root es p es2 ∧ hasGoFile es2 = true) := by
  constructor
  · constructor
    · exact mem_listA_reaches root es p
    · rintro ⟨es2, hr, hg⟩
      exact reachesA_sub hr p (mem_listAllSubPackagesA_self p es2 hg)
  · constructor
    · exact mem_listB_reaches root es p
    · rintro ⟨es2, hr, hg⟩
      exact reachesB_sub hr p (mem_listAllSubPackagesB_self p es2 hg)

/-- Claim C3 (confirmed): processing any nonempty sequence of interrupt
notifications from an unset flag: in variant A the first notification sets
the flag and sends one graceful SIGTERM to the process published in the
slot (none when the slot is empty), and every later notification is a
no-op; in variant B the flag is `true` after the first notification and
every further store leaves its value `true`, and each observed
notification sends at most the single per-observed-interrupt graceful
request to the then-current slot occupant.  No handler ever sends a forced
kill: every emitted signal is `SigKind.term`. -/
theorem claim_C3 (s : Option Proc) (rest : List (Option Proc)) :
    runHandlerA false true (s :: rest) = (true, s.toList.map (fun p => (p, SigKind.term)))
    ∧ (runHandlerB false (s :: rest)).1 = true
    ∧ (∀ l : List (Option Proc), (runHandlerB true l).1 = true)
    ∧ (runHandlerB false (s :: rest)).2 =
        ((s :: rest).map (fun sl => sl.toList.map (fun p => (p, SigKind.term)))).flatten
    ∧ (∀ x ∈ (runHandlerA false true (s :: rest)).2, x.2 = SigKind.term)
    ∧ (∀ x ∈ (runHandlerB false (s :: rest)).2, x.2 = SigKind.term) := by
  have hterm : ∀ (l : List (Option Proc)) (x : Proc × SigKind),
      x ∈ (l.map (fun sl => sl.toList.map (fun p => (p, SigKind.term)))).flatten →
        x.2 = SigKind.term := by
    intro l x hx
    obtain ⟨ys, hys, hxy⟩ := List.mem_flatten.1 hx
    obtain ⟨sl, _, rfl⟩ := List.mem_map.1 hys
    obtain ⟨q, _, rfl⟩ := List.mem_map.1 hxy
    rfl
  have hA : runHandlerA false true (s :: rest)
      = (true, s.toList.map (fun p => (p, SigKind.term))) := by
    rw [runHandlerA]
    simp [runHandlerA_stop rest]
  have hBflag : (runHandlerB false (s :: rest)).1 = true := by
    rw [runHandlerB]
    exact runHandlerB_flag rest
  refine ⟨hA, hBflag, runHandlerB_flag, runHandlerB_sigs false (s :: rest), ?_, ?_⟩
  · intro x hx
    rw [hA] at hx
    obtain ⟨q, _, rfl⟩ := List.mem_map.1 hx
    rfl
  · intro x hx
    rw [runHandlerB_sigs false (s :: rest)] at hx
    exact hterm _ x hx

/-- Claim C5 (confirmed): a core-dependency override with an empty version
is written into the synthesized manifest with its path replaced by
`path.Clean(path.Join(projectRoot, declared path))` — the normalized
absolute form of the project root joined with the declared relative path —
while an override with a non-empty version is carried forward unchanged;
this holds for variant A's synthesized replace list and for variant B's
selected override as normalized by its run command. -/
theorem claim_C5 (projectRoot : Str) (orig : GoModFile) (r : GoReplace)
    (hmem : r ∈ orig.replace) (hcore : r.old.path = shanaCorePackage) :
    (r.new.version = [] →
      { old := r.old,
        new := { path := pathClean (pathJoin projectRoot r.new.path), version := [] } }
        ∈ (findGoModuleA projectRoot orig).replace)
    ∧ (r.new.version ≠ [] → r ∈ (findGoModuleA projectRoot orig).replace)
    ∧ (findGoModuleBReplace orig = some r →
        (r.new.version = [] →
          runReplaceB projectRoot (findGoModuleBReplace orig) =
            some { old := r.old,
                   new := { path := pathClean (pathJoin projectRoot r.new.path),
                            version := [] } })
        ∧ (r.new.version ≠ [] →
          runReplaceB projectRoot (findGoModuleBReplace orig) = some r)) := by
  have hfilter : r ∈ orig.replace.filter (fun x => x.old.path = shanaCorePackage) :=
    List.mem_filter.2 ⟨hmem, by simp [hcore]⟩
  have hnorm_empty : r.new.version = [] →
      normalizeReplace projectRoot r =
        { old := r.old,
          new := { path := pathClean (pathJoin projectRoot r.new.path), version := [] } } := by
    intro hv
    rw [normalizeReplace, if_pos hv, hv]
  have hnorm_keep : r.new.version ≠ [] → normalizeReplace projectRoot r = r := by
    intro hv
    rw [normalizeReplace, if_neg hv]
  refine ⟨?_, ?_, ?_⟩
  · intro hv
    exact List.mem_append_left _ (List.mem_map.2 ⟨r, hfilter, hnorm_empty hv⟩)
  · intro hv
    exact List.mem_append_left _ (List.mem_map.2 ⟨r, hfilter, hnorm_keep hv⟩)
  · intro hfind
    constructor
    · intro hv
      unfold runReplaceB
      rw [hfind]
      simp [hnorm_empty hv]
    · intro hv
      unfold runReplaceB
      rw [hfind]
      simp [hnorm_keep hv]

/-- Witness for claim C5: a concrete manifest with a local `../core`
override of the core package, normalized against project root
`/home/dev/proj` to the absolute path `/home/dev/core`. -/
theorem claim_C5_witness :
    { old := { path := shanaCorePackage, version := [] },
      new := { path := str "/home/dev/core", version := [] } } ∈
      (findGoModuleA (str "/home/dev/proj") origWithLocalCore).replace := by
  have h := (claim_C5 (str "/home/dev/proj") origWithLocalCore
    { old := { path := shanaCorePackage, version := [] },
      new := { path := str "../core", version := [] } }
    (by decide) (by decide)).1 rfl
  have heval : pathClean (pathJoin (str "/home/dev/proj") (str "../core"))
      = str "/home/dev/core" := by decide
  rw [heval] at h
  exact h

/-- Counterexample to claim C1 as stated: with no interrupt delivered
(`intTime = never`, so the interrupted flag is never set) and a failing
execute stage, variant A's run command reports no error at all, where the
claim requires a `ProcessError`. -/
theorem claim_C1_counterexample :
    ({ baseEnv with execFails := true } : RunEnv).intTime = InterruptTime.never
    ∧ ({ baseEnv with execFails := true } : RunEnv).execFails = true
    ∧ execProc ∈ (runPipelineA { baseEnv with execFails := true }).spawned
    ∧ (runPipelineA { baseEnv with execFails := true }).err = none := by decide

set_option maxHeartbeats 2000000 in
/-- Claim C1 (corrected): in variant A a failure of the execute stage is
never reported, whether or not the interrupted flag is set (its error is
unconditionally discarded); in variant B a failure of the execute stage is
always reported as a `ProcessError`, even when the interrupted flag is
set; in both variants failures of the tidy or compile stages are always
reported. -/
theorem claim_C1_amended (env : RunEnv) :
    (∀ m, (runPipelineA env).err ≠ some (RunError.processError Stage.exec m))
    ∧ (env.execFails = true → execProc ∈ (runPipelineB env).spawned →
        (runPipelineB env).err =
          some (RunError.processError Stage.exec (str "Fail to run the service.")))
    ∧ (env.tidyFails = true → tidyProc ∈ (runPipelineA env).spawned →
        (runPipelineA env).err =
          some (RunError.processError Stage.tidy (str "Fail to tidy the go.mod file.")))
    ∧ (env.buildFails = true → buildProc env.args ∈ (runPipelineA env).spawned →
        (runPipelineA env).err =
          some (RunError.processError Stage.build (str "Fail to build the service.")))
    ∧ (env.tidyFails = true → tidyProc ∈ (runPipelineB env).spawned →
        (runPipelineB env).err =
          some (RunError.processError Stage.tidy (str "Fail to tidy the go.mod file.")))
    ∧ (env.buildFails = true → buildProc env.args ∈ (runPipelineB env).spawned →
        (runPipelineB env).err =
          some (RunError.processError Stage.build (str "Fail to build the service.")))
    := by
  have he1 := (execProc_ne env.args).1
  have he2 := (execProc_ne env.args).2.1
  have he3 := (execProc_ne env.args).2.2
  have hb1 := (buildProc_ne env.args).1
  have hb2 := (buildProc_ne env.args).2
  have ht1 := tidyProc_ne
  refine ⟨?_, ?_, ?_, ?_, ?_, ?_⟩
  · intro m
    unfold runPipelineA stagesA
    split_ifs <;> simp
  · intro h1 h2
    unfold runPipelineB stagesB at h2 ⊢
    split_ifs at h2 ⊢ <;> simp_all
  · intro h1 h2
    unfold runPipelineA stagesA at h2 ⊢
    split_ifs at h2 ⊢ <;> simp_all
  · intro h1 h2
    unfold runPipelineA stagesA at h2 ⊢
    split_ifs at h2 ⊢ <;> simp_all
  · intro h1 h2
    unfold runPipelineB stagesB at h2 ⊢
    split_ifs at h2 ⊢ <;> simp_all
  · intro h1 h2
    unfold runPipelineB stagesB at h2 ⊢
    split_ifs at h2 ⊢ <;> simp_all

/-- Witness for claim C1 (amended) at a concrete environment with a
failing execute stage and no interrupt. -/
theorem claim_C1_witness :
    (runPipelineA { baseEnv with execFails := true }).err ≠
        some (RunError.processError Stage.exec (str "Fail to run the service."))
    ∧ (runPipelineB { baseEnv with execFails := true }).err =
        some (RunError.processError Stage.exec (str "Fail to run the service.")) :=
  ⟨(claim_C1_amended _).1 _, (claim_C1_amended _).2.1 rfl (by decide)⟩

set_option maxHeartbeats 2000000 in
/-- Claim C2 (confirmed): in both variants, when the first interrupt
notification is delivered while the compile stage's process is running
(`intTime = duringBuild`, with the compile process actually spawned), the
execute stage's process is never spawned and the workspace directory has
been removed by the time the run command returns, on every exit path
(compile failure or interrupted skip). -/
theorem claim_C2 (env : RunEnv) (h : env.intTime = InterruptTime.duringBuild) :
    (buildProc env.args ∈ (runPipelineA env).spawned →
      execProc ∉ (runPipelineA env).spawned ∧ (runPipelineA env).workspaceRemoved = true)
    ∧ (buildProc env.args ∈ (runPipelineB env).spawned →
      execProc ∉ (runPipelineB env).spawned ∧ (runPipelineB env).workspaceRemoved = true)
    := by
  have hpos : env.intTime.pos = 3 := by rw [h]; rfl
  have he1 := (execProc_ne env.args).1
  have he2 := (execProc_ne env.args).2.1
  have he3 := (execProc_ne env.args).2.2
  have hb1 := (buildProc_ne env.args).1
  have hb2 := (buildProc_ne env.args).2
  constructor
  · intro hb
    unfold runPipelineA stagesA at hb ⊢
    rw [hpos] at hb ⊢
    split_ifs at hb ⊢ <;> simp_all
  · intro hb
    unfold runPipelineB stagesB at hb ⊢
    rw [hpos] at hb ⊢
    split_ifs at hb ⊢ <;> simp_all

/-- Witness for claim C2 at a concrete environment interrupted during the
compile stage. -/
theorem claim_C2_witness :
    execProc ∉ (runPipelineA { baseEnv with intTime := InterruptTime.duringBuild }).spawned
    ∧ (runPipelineA { baseEnv with
        intTime := InterruptTime.duringBuild }).workspaceRemoved = true :=
  (claim_C2 _ rfl).1 (by decide)

/-- Counterexample to claim C4 as stated: with an unsupported protocol the
command does fail with a configuration error before the workspace is
created, but an external process (the module query `go env GOMOD`) has
already been spawned at that point, contradicting "before any external
process is spawned". -/
theorem claim_C4_counterexample :
    (runPipelineA { baseEnv with args := [str "grpc"] }).err =
        some (RunError.configError (str "unsupported server-proto"))
    ∧ (runPipelineA { baseEnv with args := [str "grpc"] }).workspaceCreated = false
    ∧ goEnvProc ∈ (runPipelineA { baseEnv with args := [str "grpc"] }).spawned := by decide

/-- Claim C4 (corrected): in both variants, a run invocation (on a
successfully resolved project, i.e. the `errors.Assert` passed) whose
protocol argument is not `httpjson` fails with a configuration error
before the workspace directory is created and before any pipeline-stage
process (tidy, compile or execute) is spawned; however the module
resolution query `go env GOMOD` — an external process — has already been
spawned by then, so the only processes spawned are exactly that query. -/
theorem claim_C4_amended (env : RunEnv) (h1 : env.projectRoot ≠ []) (h2 : env.pkgName ≠ [])
    (h3 : env.args.headD [] ≠ str "httpjson") :
    ((∃ m, (runPipelineA env).err = some (RunError.configError m))
      ∧ (runPipelineA env).workspaceCreated = false
      ∧ (runPipelineA env).spawned = [goEnvProc])
    ∧ ((∃ m, (runPipelineB env).err = some (RunError.configError m))
      ∧ (runPipelineB env).workspaceCreated = false
      ∧ (runPipelineB env).spawned = [goEnvProc]) := by
  constructor
  · unfold runPipelineA
    rw [if_neg (by push_neg; exact ⟨h1, h2⟩)]
    by_cases hd : discoverA env.pkgName env.projectRoot env.entries = []
    · rw [if_pos hd]
      exact ⟨⟨_, rfl⟩, rfl, rfl⟩
    · rw [if_neg hd, if_pos h3]
      exact ⟨⟨_, rfl⟩, rfl, rfl⟩
  · unfold runPipelineB
    rw [if_neg (by push_neg; exact ⟨h1, h2⟩)]
    by_cases hd : discoverB env.pkgName env.projectRoot env.entries = []
    · rw [if_pos hd]
      exact ⟨⟨_, rfl⟩, rfl, rfl⟩
    · rw [if_neg hd, if_pos h3]
      exact ⟨⟨_, rfl⟩, rfl, rfl⟩

/-- Witness for claim C4 (amended) at a concrete environment requesting an
unsupported protocol. -/
theorem claim_C4_witness :
    ((∃ m, (runPipelineA { baseEnv with args := [str "grpc"] }).err =
        some (RunError.configError m))
      ∧ (runPipelineA { baseEnv with args := [str "grpc"] }).workspaceCreated = false
      ∧ (runPipelineA { baseEnv with args := [str "grpc"] }).spawned = [goEnvProc])
    ∧ ((∃ m, (runPipelineB { baseEnv with args := [str "grpc"] }).err =
        some (RunError.configError m))
      ∧ (runPipelineB { baseEnv with args := [str "grpc"] }).workspaceCreated = false
      ∧ (runPipelineB { baseEnv with args := [str "grpc"] }).spawned = [goEnvProc]) :=
  claim_C4_amended _ (by decide) (by decide) (by decide)

/-- Counterexample to claim C9 as stated: the synthetic module identity is
the fixed constant `github.com/go-shana/shana-workspace/debug-server`; for
a project whose own manifest declares exactly that module path, the
synthesized manifest's identity is not distinct from the project's. -/
theorem claim_C9_counterexample :
    (findGoModuleA (str "/home/dev/proj") origCollidingModule).modulePath
      = origCollidingModule.modulePath := by decide

/-- Claim C9 (corrected): in both variants the synthesized manifest
declares the fixed synthetic module identity
`github.com/go-shana/shana-workspace/debug-server`, which is distinct from
the real project's identity whenever the project does not itself declare
that exact path (nothing in the code enforces this); and the synthesized
manifest always contains a replace directive mapping the real project's
module identity to the project's root path, regardless of the original
manifest's contents. -/
theorem claim_C9_amended (projectRoot pkgName : Str) (orig : GoModFile)
    (req : Option GoRequire) (rep : Option GoReplace) :
    ((findGoModuleA projectRoot orig).modulePath = syntheticModulePath
      ∧ { old := { path := orig.modulePath, version := [] },
          new := { path := projectRoot, version := [] } }
            ∈ (findGoModuleA projectRoot orig).replace
      ∧ (orig.modulePath ≠ syntheticModulePath →
          (findGoModuleA projectRoot orig).modulePath ≠ orig.modulePath))
    ∧ ((renderGoModB pkgName projectRoot req rep).modulePath = syntheticModulePath
      ∧ (renderGoModB pkgName projectRoot req rep).projectReplace =
          { old := { path := pkgName, version := [] },
            new := { path := projectRoot, version := [] } }
      ∧ (pkgName ≠ syntheticModulePath →
          (renderGoModB pkgName projectRoot req rep).modulePath ≠ pkgName)) := by
  refine ⟨⟨rfl, ?_, ?_⟩, rfl, rfl, ?_⟩
  · exact List.mem_append_right _ (List.mem_singleton.2 rfl)
  · intro hne heq
    exact hne heq.symm
  · intro hne heq
    exact hne heq.symm

/-- Witness for claim C9 (amended) at a concrete manifest whose module
path differs from the synthetic constant. -/
theorem claim_C9_witness :
    (findGoModuleA (str "/home/dev/proj") origWithLocalCore).modulePath
        ≠ origWithLocalCore.modulePath
    ∧ { old := { path := origWithLocalCore.modulePath, version := [] },
        new := { path := str "/home/dev/proj", version := [] } }
          ∈ (findGoModuleA (str "/home/dev/proj") origWithLocalCore).replace := by
  have h := claim_C9_amended (str "/home/dev/proj") (str "x") origWithLocalCore none none
  exact ⟨h.1.2.2 (by decide), h.1.2.1⟩
